import Mathlib

/-!
Shallow embedding of `src/scratch/pydownloader.py` (the partition / fetch /
reassemble pipeline) and verification of the specification's claims about it.

Modelling conventions:
* byte strings are `List Nat`;
* Python's `math.floor(length / conns * c)` is modelled by exact rational
  arithmetic: `⌊length * c / conns⌋ = Int.fdiv (length * c) conns`
  (every concrete input used below — 100/4, 100/2, 100/1, 10/2, 2/8, -10/2 —
  is exactly representable in binary floating point, so the Python float
  computation and the exact computation agree at those points);
* the stateful `ContentRange` iterator becomes an explicit state record with
  a step function (`ContentRangeState.next` models `__next__`, returning
  `none` for `StopIteration`), and `assert conns > 0` in `__init__` becomes
  an `Option` (`none` = `AssertionError`, no iterator is produced);
* the filesystem visible to one `download` call is the association list of
  chunk files on disk, keyed by chunk index `i` (the chunk file name
  `.{outfile}.{i}` is in bijection with `i` for a fixed output name), plus
  the optional final output file.
-/

namespace PyDownloader

/-- Byte strings. -/
abbrev Bytes := List Nat

/-- Model of `math.floor(length / conns * c)` under exact (rational) arithmetic. -/
def floorMul (length conns c : Int) : Int :=
  Int.fdiv (length * c) conns

/-- The mutable state of a `ContentRange` iterator: fields `conns`, `length`,
`start`, `end` (here `stop`, since `end` is a Lean keyword) and `counter`,
all initialised as in `ContentRange.__init__`. -/
structure ContentRangeState where
  conns : Int
  length : Int
  start : Int
  stop : Int
  counter : Int
  deriving Repr, DecidableEq

/-- Model of `ContentRange.__init__(length, conns)`: `assert conns > 0` (modelled as
`none` on failure), then `start = end = counter = 0`. -/
def ContentRangeState.init (length conns : Int) : Option ContentRangeState :=
  if conns > 0 then some ⟨conns, length, 0, 0, 0⟩ else none

/-- Model of `ContentRange.__next__`: if `counter != 0` update
`start = floor(length / conns * counter) + 1`; always update
`end = floor(length / conns * (counter + 1))`; increment `counter`;
raise `StopIteration` (here `none`) when the incremented counter equals
`conns + 1`, otherwise yield `(start, end)`. -/
def ContentRangeState.next (s : ContentRangeState) :
    Option ((Int × Int) × ContentRangeState) :=
  let start := if s.counter = 0 then s.start
    else floorMul s.length s.conns s.counter + 1
  let stop := floorMul s.length s.conns (s.counter + 1)
  let counter := s.counter + 1
  if counter = s.conns + 1 then none
  else some ((start, stop), { s with start := start, stop := stop, counter := counter })

/-- Drain the iterator into a list, fuel-bounded (the iterator yields exactly
`conns` pairs before raising `StopIteration`, so any fuel `≥ conns + 1`
drains it completely). -/
def ContentRangeState.takeRanges : Nat → ContentRangeState → List (Int × Int)
  | 0, _ => []
  | fuel + 1, s =>
    match s.next with
    | none => []
    | some (r, s2) => r :: takeRanges fuel s2

/-- Model of `list(ContentRange(length, conns))`: the full sequence of `(start, end)`
pairs the iterator yields, or `none` when `__init__`'s assertion fails. -/
def contentRangeList (length conns : Int) : Option (List (Int × Int)) :=
  (ContentRangeState.init length conns).map
    (fun s => s.takeRanges (conns.toNat + 1))

/-- Model of `h.lower()` on an (ASCII) header name, written over the character list so
that it evaluates inside the kernel; agrees with Python `str.lower` on the
ASCII header names that occur here. -/
def strLower (s : String) : String :=
  ⟨s.data.map Char.toLower⟩

/-! ## The per-range fetch task: `download_range` -/

/-- The HTTP response a `GET` with a `range` header produced: status code,
headers (name/value pairs, names in arbitrary case), and the body as the
list of chunks `response.aiter_bytes()` yields. -/
structure RangeResponse where
  status : Nat
  headers : List (String × String)
  bodyChunks : List Bytes
  deriving Repr, DecidableEq

/-- Case-insensitive header lookup, as `httpx`'s `response.headers[...]` does. -/
def headerLookup (hs : List (String × String)) (name : String) : Option String :=
  (hs.find? (fun p => strLower p.1 == strLower name)).map Prod.snd

/-- Concatenation of a list of byte strings, in list order. -/
def concatAll : List Bytes → Bytes
  | [] => []
  | b :: rest => b ++ concatAll rest

/-- Model of `download_range(url, timeout, start, end, outfile)`: opens the chunk file
(truncating it), reads `response.headers["Content-Length"]` (a `KeyError` —
hence a task failure — when the header is absent), then streams every body
chunk into the file. The response's status code is never inspected. Returns
the chunk file's final content on success. -/
def download_range (resp : RangeResponse) : Except String Bytes :=
  match headerLookup resp.headers "Content-Length" with
  | none => Except.error "KeyError"
  | some _ => Except.ok (concatAll resp.bodyChunks)

/-! ## The filesystem model: chunk files keyed by their index -/

/-- Read chunk file `i` (the first — only — entry with key `i`). -/
def fsLookup : List (Nat × Bytes) → Nat → Option Bytes
  | [], _ => none
  | p :: t, i => if p.1 = i then some p.2 else fsLookup t i

/-- Model of `os.remove` of chunk file `i` (a no-op when no such file exists, as the
guarded `if os.path.exists(file_n): os.remove(file_n)` in the cleanup path;
on the assembly path the file it removes always exists). -/
def fsRemove : List (Nat × Bytes) → Nat → List (Nat × Bytes)
  | [], _ => []
  | p :: t, i => if p.1 = i then fsRemove t i else p :: fsRemove t i

/-- Writing chunk file `i` with content `b` (`open(file, "wb")` then writing
the stream: any previous content of that file is replaced). -/
def fsWrite (fs : List (Nat × Bytes)) (i : Nat) (b : Bytes) : List (Nat × Bytes) :=
  (i, b) :: fsRemove fs i

/-! ## The orchestrator: `download` -/

/-- The HEAD response `download` discovers metadata from: the list of header
names present (in arbitrary case) and the reported `Content-Length` value
(meaningful only when the corresponding header name is present). -/
structure HeadResponse where
  headers : List String
  contentLength : Int
  deriving Repr, DecidableEq

/-- Model of `headers_lc = [h.lower() for h in response.headers]` followed by the
membership test `name in headers_lc`. -/
def hasHeader (head : HeadResponse) (name : String) : Bool :=
  (head.headers.map strLower).contains name

/-- The effective connection count: forced to `1` when the server does not
advertise `accept-ranges`, the requested `conncount` otherwise. -/
def effConns (head : HeadResponse) (conncount : Int) : Int :=
  if hasHeader head "accept-ranges" then conncount else 1

/-- The outcome of one dispatched `download_range` task, abstracting its
network interaction: `ok b` — the task succeeded and its chunk file holds
exactly `b`; `error (some b)` — the task failed (or was cancelled) leaving a
complete-or-partial chunk file holding `b`; `error none` — the task failed
before its chunk file was created. -/
abbrev TaskOutcome := Except (Option Bytes) Bytes

/-- The effect of task `i` completing on the chunk filesystem. -/
def taskStep (taskRun : Nat → TaskOutcome) (fs : List (Nat × Bytes)) (i : Nat) :
    List (Nat × Bytes) :=
  match taskRun i with
  | Except.ok b => fsWrite fs i b
  | Except.error (some b) => fsWrite fs i b
  | Except.error none => fs

/-- The chunk filesystem after all dispatched tasks have run, in completion
order `order` (each task touches only its own exclusively-owned chunk file). -/
def runTasksD (taskRun : Nat → TaskOutcome) (order : List Nat) : List (Nat × Bytes) :=
  order.foldl (taskStep taskRun) []

/-- Whether task `i` succeeded (so that `asyncio.gather` returns normally). -/
def isOk : TaskOutcome → Bool
  | Except.ok _ => true
  | Except.error _ => false

/-- Whether `asyncio.gather` over the `n` dispatched tasks returns normally: iff every
task succeeded. -/
def allOk (taskRun : Nat → TaskOutcome) (n : Nat) : Bool :=
  (List.range n).all (fun i => isOk (taskRun i))

/-- The failure-path cleanup: for every task's chunk file name, remove the
file if it exists (`tasks` holds the names `.{outfile}.{i}` for `i < n`, in
insertion order). -/
def cleanup (fs : List (Nat × Bytes)) (n : Nat) : List (Nat × Bytes) :=
  (List.range n).foldl fsRemove fs

/-- The assembly loop: `for i in range(file_idx)` — read chunk `i` (a missing
chunk file is a `FileNotFoundError`, modelled as `Except.error` carrying the
output written so far and the remaining chunk files), append its bytes to the
output file, and remove the chunk file immediately afterwards. Returns the
final output content together with the remaining chunk filesystem. -/
def assembleLoop :
    List Nat → List (Nat × Bytes) → Bytes →
      Except (Bytes × List (Nat × Bytes)) (Bytes × List (Nat × Bytes))
  | [], fs, acc => Except.ok (acc, fs)
  | i :: rest, fs, acc =>
    match fsLookup fs i with
    | none => Except.error (acc, fs)
    | some b => assembleLoop rest (fsRemove fs i) (acc ++ b)

/-- How one `download` call terminated. -/
inductive DownloadResult where
  /-- the `content-length` header was absent from the HEAD response: returned early -/
  | missingLength
  /-- the `assert conns > 0` in `ContentRange.__init__` failed -/
  | assertionError
  /-- some fetch task failed: cleaned up and returned. -/
  | aborted
  /-- a chunk file was missing during assembly (`FileNotFoundError`). -/
  | crashed
  /-- all chunks fetched and concatenated into the output file. -/
  | success
  deriving Repr, DecidableEq

/-- The externally visible end state of one `download` call. -/
structure DownloadState where
  /-- the chunk files still on disk -/
  chunks : List (Nat × Bytes)
  /-- the final output file's content, when that file was created -/
  output : Option Bytes
  /-- how many fetch tasks were dispatched (`file_idx` after the loop) -/
  tasksDispatched : Nat
  /-- the `(start, end)` pair each dispatched task was given, in index order -/
  dispatchedRanges : List (Int × Int)
  deriving Repr, DecidableEq

/-- The part of `download` after planning: dispatch one task per range, gather
them, and either assemble (all tasks succeeded) or cancel-and-clean-up. -/
def downloadWithRanges (taskRun : Nat → TaskOutcome) (order : List Nat)
    (ranges : List (Int × Int)) : DownloadResult × DownloadState :=
  let n := ranges.length
  let fs := runTasksD taskRun order
  if allOk taskRun n then
    match assembleLoop (List.range n) fs [] with
    | Except.ok (out, fsLeft) => (DownloadResult.success, ⟨fsLeft, some out, n, ranges⟩)
    | Except.error (acc, fsLeft) => (DownloadResult.crashed, ⟨fsLeft, some acc, n, ranges⟩)
  else
    (DownloadResult.aborted, ⟨cleanup fs n, none, n, ranges⟩)

/-- Model of `download(url, conncount, timeout, outfile)`: return early when the HEAD
response reports no `content-length`; force the connection count to 1 when it
reports no `accept-ranges`; plan the ranges with `ContentRange`; dispatch one
`download_range` task per range; gather; on failure cancel the tasks and
remove every chunk file; on success concatenate the chunks in index order
into the output file, removing each chunk right after it is consumed.
`taskRun` gives each dispatched task's outcome and `order` the order in which
the tasks complete. -/
def download (head : HeadResponse) (conncount : Int)
    (taskRun : Nat → TaskOutcome) (order : List Nat) :
    DownloadResult × DownloadState :=
  if !(hasHeader head "content-length") then
    (DownloadResult.missingLength, ⟨[], none, 0, []⟩)
  else
    match contentRangeList head.contentLength (effConns head conncount) with
    | none => (DownloadResult.assertionError, ⟨[], none, 0, []⟩)
    | some ranges => downloadWithRanges taskRun order ranges

/-! ## Helper lemmas about the filesystem model -/

theorem fsLookup_fsRemove_ne (fs : List (Nat × Bytes)) {i j : Nat} (h : j ≠ i) :
    fsLookup (fsRemove fs i) j = fsLookup fs j := by
  induction fs with
  | nil => rfl
  | cons p t ih =>
    by_cases hk : p.1 = i
    · rw [fsRemove, if_pos hk, ih, fsLookup,
        if_neg (fun hpj : p.1 = j => h (hpj.symm.trans hk))]
    · rw [fsRemove, if_neg hk]
      by_cases hj : p.1 = j
      · rw [fsLookup, if_pos hj, fsLookup, if_pos hj]
      · rw [fsLookup, if_neg hj, fsLookup, if_neg hj, ih]

theorem fsLookup_fsWrite_self (fs : List (Nat × Bytes)) (i : Nat) (b : Bytes) :
    fsLookup (fsWrite fs i b) i = some b := by
  rw [fsWrite, fsLookup, if_pos rfl]

theorem fsLookup_fsWrite_ne (fs : List (Nat × Bytes)) {i j : Nat} (h : j ≠ i) (b : Bytes) :
    fsLookup (fsWrite fs i b) j = fsLookup fs j := by
  rw [fsWrite, fsLookup, if_neg (fun e => h e.symm)]
  exact fsLookup_fsRemove_ne fs h

theorem mem_fsRemove (fs : List (Nat × Bytes)) (i : Nat) (p : Nat × Bytes)
    (hp : p ∈ fsRemove fs i) : p ∈ fs := by
  induction fs with
  | nil => cases hp
  | cons q t ih =>
    by_cases hq : q.1 = i
    · rw [fsRemove, if_pos hq] at hp
      exact List.mem_cons_of_mem _ (ih hp)
    · rw [fsRemove, if_neg hq] at hp
      rcases List.mem_cons.mp hp with h | h
      · exact h ▸ List.mem_cons_self _ _
      · exact List.mem_cons_of_mem _ (ih h)

theorem mem_fsRemove_ne (fs : List (Nat × Bytes)) (i : Nat) (p : Nat × Bytes)
    (hp : p ∈ fsRemove fs i) : p.1 ≠ i := by
  induction fs with
  | nil => cases hp
  | cons q t ih =>
    by_cases hq : q.1 = i
    · rw [fsRemove, if_pos hq] at hp
      exact ih hp
    · rw [fsRemove, if_neg hq] at hp
      rcases List.mem_cons.mp hp with h | h
      · exact h ▸ hq
      · exact ih h

theorem fsLookup_taskStep_ne (taskRun : Nat → TaskOutcome) (fs : List (Nat × Bytes))
    {i j : Nat} (h : j ≠ i) : fsLookup (taskStep taskRun fs i) j = fsLookup fs j := by
  unfold taskStep
  cases htr : taskRun i with
  | ok b => exact fsLookup_fsWrite_ne fs h b
  | error ob =>
    cases ob with
    | none => rfl
    | some b => exact fsLookup_fsWrite_ne fs h b

theorem mem_taskStep (taskRun : Nat → TaskOutcome) (fs : List (Nat × Bytes)) (i : Nat)
    (p : Nat × Bytes) (hp : p ∈ taskStep taskRun fs i) : p.1 = i ∨ p ∈ fs := by
  unfold taskStep at hp
  cases htr : taskRun i with
  | ok b =>
    rw [htr] at hp
    rcases List.mem_cons.mp hp with h | h
    · exact Or.inl (h ▸ rfl)
    · exact Or.inr (mem_fsRemove fs i p h)
  | error ob =>
    cases ob with
    | none => rw [htr] at hp; exact Or.inr hp
    | some b =>
      rw [htr] at hp
      rcases List.mem_cons.mp hp with h | h
      · exact Or.inl (h ▸ rfl)
      · exact Or.inr (mem_fsRemove fs i p h)

theorem foldl_taskStep_lookup_of_not_mem (taskRun : Nat → TaskOutcome) (order : List Nat) :
    ∀ (fs : List (Nat × Bytes)) (i : Nat), i ∉ order →
      fsLookup (order.foldl (taskStep taskRun) fs) i = fsLookup fs i := by
  induction order with
  | nil => intro fs i _; rfl
  | cons j rest ih =>
    intro fs i hi
    rw [List.foldl_cons]
    have hij : i ≠ j := fun e => hi (e ▸ List.mem_cons_self j rest)
    rw [ih _ _ (fun hm => hi (List.mem_cons_of_mem _ hm)),
      fsLookup_taskStep_ne taskRun fs hij]

theorem foldl_taskStep_lookup_of_ok (taskRun : Nat → TaskOutcome) (order : List Nat) :
    ∀ (fs : List (Nat × Bytes)) (i : Nat) (b : Bytes), i ∈ order → taskRun i = Except.ok b →
      fsLookup (order.foldl (taskStep taskRun) fs) i = some b := by
  induction order with
  | nil => intro fs i b h; cases h
  | cons j rest ih =>
    intro fs i b hmem hok
    rw [List.foldl_cons]
    by_cases hir : i ∈ rest
    · exact ih _ _ _ hir hok
    · have hij : i = j := by
        rcases List.mem_cons.mp hmem with h | h
        · exact h
        · exact absurd h hir
      subst hij
      rw [foldl_taskStep_lookup_of_not_mem taskRun rest _ _ hir]
      unfold taskStep
      rw [hok]
      exact fsLookup_fsWrite_self fs i b

theorem mem_foldl_taskStep (taskRun : Nat → TaskOutcome) (order : List Nat) :
    ∀ (fs : List (Nat × Bytes)) (p : Nat × Bytes),
      p ∈ order.foldl (taskStep taskRun) fs → p.1 ∈ order ∨ p ∈ fs := by
  induction order with
  | nil => intro fs p hp; exact Or.inr hp
  | cons j rest ih =>
    intro fs p hp
    rw [List.foldl_cons] at hp
    rcases ih _ _ hp with h | h
    · exact Or.inl (List.mem_cons_of_mem _ h)
    · rcases mem_taskStep taskRun fs j p h with h1 | h1
      · exact Or.inl (h1 ▸ List.mem_cons_self _ _)
      · exact Or.inr h1

theorem foldl_fsRemove_eq_nil :
    ∀ (l : List Nat) (fs : List (Nat × Bytes)), (∀ p ∈ fs, p.1 ∈ l) →
      l.foldl fsRemove fs = [] := by
  intro l
  induction l with
  | nil =>
    intro fs h
    cases fs with
    | nil => rfl
    | cons p t => exact absurd (h p (List.mem_cons_self _ _)) (List.not_mem_nil _)
  | cons r rest ih =>
    intro fs h
    rw [List.foldl_cons]
    apply ih
    intro p hp
    rcases List.mem_cons.mp (h p (mem_fsRemove fs r p hp)) with h1 | h1
    · exact absurd h1 (mem_fsRemove_ne fs r p hp)
    · exact h1

theorem assembleLoop_ok (contents : Nat → Bytes) :
    ∀ (l : List Nat) (fs : List (Nat × Bytes)) (acc : Bytes), l.Nodup →
      (∀ p ∈ fs, p.1 ∈ l) → (∀ i ∈ l, fsLookup fs i = some (contents i)) →
      assembleLoop l fs acc = Except.ok (acc ++ concatAll (l.map contents), []) := by
  intro l
  induction l with
  | nil =>
    intro fs acc _ hkeys _
    have hfs : fs = [] := by
      cases fs with
      | nil => rfl
      | cons p t => exact absurd (hkeys p (List.mem_cons_self _ _)) (List.not_mem_nil _)
    subst hfs
    simp [assembleLoop, concatAll]
  | cons i rest ih =>
    intro fs acc hnd hkeys hlook
    have hnd2 := List.nodup_cons.mp hnd
    have hfind : fsLookup fs i = some (contents i) := hlook i (List.mem_cons_self _ _)
    have hkeys2 : ∀ p ∈ fsRemove fs i, p.1 ∈ rest := by
      intro p hp
      rcases List.mem_cons.mp (hkeys p (mem_fsRemove fs i p hp)) with h1 | h1
      · exact absurd h1 (mem_fsRemove_ne fs i p hp)
      · exact h1
    have hlook2 : ∀ j ∈ rest, fsLookup (fsRemove fs i) j = some (contents j) := by
      intro j hj
      have hji : j ≠ i := fun e => hnd2.1 (e ▸ hj)
      rw [fsLookup_fsRemove_ne fs hji]
      exact hlook j (List.mem_cons_of_mem _ hj)
    simp only [assembleLoop, hfind]
    rw [ih (fsRemove fs i) (acc ++ contents i) hnd2.2 hkeys2 hlook2]
    simp [concatAll, List.append_assoc]

theorem allOk_eq_true (taskRun : Nat → TaskOutcome) (n : Nat) (contents : Nat → Bytes)
    (h : ∀ i < n, taskRun i = Except.ok (contents i)) : allOk taskRun n = true := by
  apply List.all_eq_true.mpr
  intro i hi
  rw [h i (List.mem_range.mp hi)]
  rfl

theorem downloadWithRanges_success (taskRun : Nat → TaskOutcome) (order : List Nat)
    (ranges : List (Int × Int)) (contents : Nat → Bytes)
    (horder : order.Perm (List.range ranges.length))
    (hok : ∀ i < ranges.length, taskRun i = Except.ok (contents i)) :
    downloadWithRanges taskRun order ranges =
      (DownloadResult.success,
        ⟨[], some (concatAll ((List.range ranges.length).map contents)),
          ranges.length, ranges⟩) := by
  have hall : allOk taskRun ranges.length = true := allOk_eq_true _ _ _ hok
  have hassemble :
      assembleLoop (List.range ranges.length) (runTasksD taskRun order) [] =
        Except.ok ([] ++ concatAll ((List.range ranges.length).map contents), []) := by
    apply assembleLoop_ok
    · exact List.nodup_range _
    · intro p hp
      rcases mem_foldl_taskStep taskRun order [] p hp with h | h
      · exact horder.mem_iff.mp h
      · cases h
    · intro i hi
      exact foldl_taskStep_lookup_of_ok taskRun order [] i (contents i)
        (horder.mem_iff.mpr hi) (hok i (List.mem_range.mp hi))
  unfold downloadWithRanges runTasksD
  unfold runTasksD at hassemble
  simp only [hall, hassemble]
  simp

theorem downloadWithRanges_abort (taskRun : Nat → TaskOutcome) (order : List Nat)
    (ranges : List (Int × Int))
    (horder : order.Perm (List.range ranges.length))
    (hfail : allOk taskRun ranges.length = false) :
    downloadWithRanges taskRun order ranges =
      (DownloadResult.aborted, ⟨[], none, ranges.length, ranges⟩) := by
  have hclean : cleanup (runTasksD taskRun order) ranges.length = [] := by
    unfold cleanup
    apply foldl_fsRemove_eq_nil
    intro p hp
    rcases mem_foldl_taskStep taskRun order [] p hp with h | h
    · exact horder.mem_iff.mp h
    · cases h
  unfold downloadWithRanges
  simp only [hfail, hclean]
  simp

/-! ## Claim theorems -/

/-- C1. The spec claims every plan over length `L` with count `N` ends its
last range at `L - 1`, never `L`. The code's last range ends at `L`: for
`L = 10`, `N = 2` the planner yields `(0, 5), (6, 10)` — the last end is
`10 = L`, not `9 = L - 1` (the off-by-one the spec itself flags in §3/§9). -/
theorem contentRange_last_end_overshoots :
    contentRangeList 10 2 = some [(0, 5), (6, 10)] := by decide

/-- C2. When every fetch task succeeds, `download` writes the final output as
the concatenation of the chunk contents in ascending range-index order, for
every completion order of the tasks (any permutation `order` of the task
indices), and no chunk file remains afterwards (each is removed right after
it is consumed by the assembly loop). -/
theorem download_success_concat (head : HeadResponse) (conncount : Int)
    (taskRun : Nat → TaskOutcome) (order : List Nat)
    (ranges : List (Int × Int)) (contents : Nat → Bytes)
    (hcl : hasHeader head "content-length" = true)
    (hranges : contentRangeList head.contentLength (effConns head conncount) = some ranges)
    (horder : order.Perm (List.range ranges.length))
    (hok : ∀ i < ranges.length, taskRun i = Except.ok (contents i)) :
    download head conncount taskRun order =
      (DownloadResult.success,
        ⟨[], some (concatAll ((List.range ranges.length).map contents)),
          ranges.length, ranges⟩) := by
  unfold download
  rw [hcl, hranges]
  simp only [Bool.not_true]
  rw [if_neg (by simp)]
  exact downloadWithRanges_success taskRun order ranges contents horder hok

theorem download_success_concat_witness :
    ([1, 0].Perm (List.range 2)) ∧
      download ⟨["Content-Length", "Accept-Ranges"], 100⟩ 2
          (fun i => Except.ok (if i = 0 then [5] else [7])) [1, 0] =
        (DownloadResult.success,
          ⟨[], some (concatAll ((List.range 2).map (fun i => if i = 0 then [5] else [7]))),
            2, [(0, 50), (51, 100)]⟩) :=
  ⟨by decide,
    download_success_concat ⟨["Content-Length", "Accept-Ranges"], 100⟩ 2
      (fun i => Except.ok (if i = 0 then [5] else [7])) [1, 0] [(0, 50), (51, 100)]
      (fun i => if i = 0 then [5] else [7]) (by decide) (by decide) (by decide)
      (fun _ _ => rfl)⟩

/-- C3. When at least one of the dispatched fetch tasks fails, `download`
aborts: every chunk file that was created (complete or partial, whatever the
tasks managed to write) is deleted, the output file is never created, and no
retry happens — afterwards zero chunk files remain. -/
theorem download_failure_aborts (head : HeadResponse) (conncount : Int)
    (taskRun : Nat → TaskOutcome) (order : List Nat) (ranges : List (Int × Int))
    (hcl : hasHeader head "content-length" = true)
    (hranges : contentRangeList head.contentLength (effConns head conncount) = some ranges)
    (horder : order.Perm (List.range ranges.length))
    (hfail : allOk taskRun ranges.length = false) :
    download head conncount taskRun order =
      (DownloadResult.aborted, ⟨[], none, ranges.length, ranges⟩) := by
  unfold download
  rw [hcl, hranges]
  simp only [Bool.not_true]
  rw [if_neg (by simp)]
  exact downloadWithRanges_abort taskRun order ranges horder hfail

theorem download_failure_aborts_witness :
    ([1, 0].Perm (List.range 2)) ∧
      download ⟨["Content-Length", "Accept-Ranges"], 100⟩ 2
          (fun i => if i = 0 then Except.ok [1] else Except.error (some [9])) [1, 0] =
        (DownloadResult.aborted, ⟨[], none, 2, [(0, 50), (51, 100)]⟩) :=
  ⟨by decide,
    download_failure_aborts ⟨["Content-Length", "Accept-Ranges"], 100⟩ 2
      (fun i => if i = 0 then Except.ok [1] else Except.error (some [9])) [1, 0]
      [(0, 50), (51, 100)] (by decide) (by decide) (by decide) (by decide)⟩

/-- C4. The spec claims the per-range fetch fails with `UnexpectedStatus`
when the server does not honor the byte-range request. The code never
inspects the response status: `download_range` gives the same result for any
two status codes, and at a whole-resource `200` response it silently writes
the full body into the chunk and succeeds. -/
theorem download_range_ignores_status :
    (∀ (s1 s2 : Nat) (hs : List (String × String)) (body : List Bytes),
        download_range ⟨s1, hs, body⟩ = download_range ⟨s2, hs, body⟩) ∧
      download_range ⟨200, [("Content-Length", "3")], [[1, 2], [3]]⟩ =
        Except.ok [1, 2, 3] :=
  ⟨fun _ _ _ _ => rfl, rfl⟩

/-- C5. When the HEAD response carries no `content-length` header (in any
case variant), `download` returns before planning: no fetch task is
dispatched, no chunk file is ever created and no output file is written. -/
theorem download_missing_length (head : HeadResponse) (conncount : Int)
    (taskRun : Nat → TaskOutcome) (order : List Nat)
    (h : hasHeader head "content-length" = false) :
    download head conncount taskRun order =
      (DownloadResult.missingLength, ⟨[], none, 0, []⟩) := by
  unfold download
  rw [h]
  simp

theorem download_missing_length_witness :
    (hasHeader ⟨["Accept-Ranges"], 7⟩ "content-length" = false) ∧
      download ⟨["Accept-Ranges"], 7⟩ 8 (fun _ => Except.error none) [] =
        (DownloadResult.missingLength, ⟨[], none, 0, []⟩) :=
  ⟨by decide, download_missing_length ⟨["Accept-Ranges"], 7⟩ 8
    (fun _ => Except.error none) [] (by decide)⟩

/-- C6. A HEAD response with `Content-Length: 100` and no `Accept-Ranges`,
with requested count 8: the connection count is forced to 1 and exactly one
fetch task is dispatched — but its range is `(0, 100) = (0, L)`, not
`(0, 99) = (0, L-1)` as the claim states (the same off-by-one as C1). -/
theorem download_no_accept_ranges_single_task :
    download ⟨["Content-Length"], 100⟩ 8 (fun _ => Except.ok [0]) [0] =
      (DownloadResult.success, ⟨[], some [0], 1, [(0, 100)]⟩) := by decide

/-- C7. The spec claims `plan(L, 1)` returns exactly `(0, L-1)`. The code
returns `(0, L)`: at `L = 100` it yields the single range `(0, 100)`, not
`(0, 99)`. -/
theorem contentRange_single_conn_overshoots :
    contentRangeList 100 1 = some [(0, 100)] := by decide

/-- C8 (counterexample). For `L = 100`, `N = 4` the planner does not return
the ranges `(0,24), (25,49), (50,74), (75,99)` the claim states. -/
theorem contentRange_100_4_differs_from_claim :
    contentRangeList 100 4 ≠ some [(0, 24), (25, 49), (50, 74), (75, 99)] := by decide

/-- C8 (amended). For `L = 100`, `N = 4` the planner returns exactly
`(0,25), (26,50), (51,75), (76,100)`: each internal boundary one higher than
the claim's, and the last end `100 = L`, not `99`. -/
theorem contentRange_100_4_eval :
    contentRangeList 100 4 = some [(0, 25), (26, 50), (51, 75), (76, 100)] := by decide

/-- C9 (counterexample). A negative length is not rejected: at
`length = -10`, `count = 2` the planner raises nothing and yields two
(meaningless) ranges. -/
theorem contentRange_negative_length_accepted :
    contentRangeList (-10) 2 = some [(0, -5), (-4, -10)] := by decide

/-- C9 (amended). The planner does fail — `assert conns > 0` — whenever the
count is below 1, and produces no ranges in that case; a negative length is
not validated. -/
theorem contentRange_requires_positive_count (length conns : Int) (h : conns < 1) :
    contentRangeList length conns = none := by
  unfold contentRangeList ContentRangeState.init
  rw [if_neg (by omega)]
  rfl

theorem contentRange_requires_positive_count_witness :
    ((0 : Int) < 1) ∧ contentRangeList 5 0 = none :=
  ⟨by decide, contentRange_requires_positive_count 5 0 (by decide)⟩

/-- C10. For `length = 2`, `count = 8` the generator's second yielded range
is `(1, 0)`, whose start offset strictly exceeds its end offset: the
planner's output is not a well-formed inclusive range for every
`length ≥ 0`, `count ≥ 1`. -/
theorem contentRange_malformed_small_length :
    ∃ rs, contentRangeList 2 8 = some rs ∧ rs[1]? = some ((1 : Int), (0 : Int)) ∧
      ∃ p ∈ rs, p.2 < p.1 :=
  ⟨[(0, 0), (1, 0), (1, 0), (1, 1), (2, 1), (2, 1), (2, 1), (2, 2)], by decide, by decide,
    (1, 0), by decide, by decide⟩

end PyDownloader
